import Mathlib

/-!
Shallow embedding of the thought-machine/taskgraph core: IDs, bindings,
binders (plain, overlay, graph-task), typed keys, conditions, the
Conditional task wrapper, and the Maybe helpers, translated from the Go
source.  Theorems below settle the claims about this code.
-/

set_option maxRecDepth 4000

deriving instance DecidableEq for Except

namespace Taskgraph

/-- `ID` represents a type-parameter-less identifier for a Key
(fields `namespace` and `id` of the Go struct; `namespace` is rendered `ns`). -/
structure ID where
  ns : String
  id : String
deriving DecidableEq, Repr

/-- `ID.String()`: `id` if the namespace is empty, else `namespace__id`. -/
def idString (i : ID) : String :=
  if i.ns = "" then i.id else i.ns ++ "__" ++ i.id

/-- Go errors relevant to the embedded code.  `wrapMsg` models an error built
with `fmt.Errorf`/`wrapStackErrorf` using `%w`: a message together with the
wrapped inner error; `wrapNil` models such an error wrapping a nil error.
`sentinel n` models arbitrary caller-created errors. -/
inductive GoErr where
  | isAbsent
  | isPending
  | wrongType
  | duplicateBinding
  | noMaybesPresent
  | multipleMaybesPresent
  | sentinel (n : Nat)
  | wrapMsg (msg : String) (inner : GoErr)
  | wrapNil (msg : String)
deriving DecidableEq, Repr

/-- `errors.Is`: the target equals the error or some error in its unwrap chain. -/
def errorIs : GoErr → GoErr → Bool
  | e, target =>
    e == target ||
      match e with
      | .wrapMsg _ inner => errorIs inner target
      | _ => false

/-- `wrapStackErrorf("%w: %q", ErrDuplicateBinding, id)` as produced by the
binder `Store` implementations. -/
def dupMsgErr (i : ID) : GoErr :=
  .wrapMsg (idString i) .duplicateBinding

/-- `BindStatus` is the tristate of a binding. -/
inductive BindStatus where
  | pending
  | absent
  | present
deriving DecidableEq, Repr

/-- Dynamic types of values stored in `any`-typed binding slots. -/
inductive Ty where
  | bool
  | int
  | str
deriving DecidableEq, Repr

/-- A dynamically typed Go value (the `any` stored in a binding). -/
inductive Val where
  | vbool (b : Bool)
  | vint (n : Int)
  | vstr (s : String)
deriving DecidableEq, Repr

/-- The dynamic type of a value (what a Go type assertion checks). -/
def Val.ty : Val → Ty
  | .vbool _ => .bool
  | .vint _ => .int
  | .vstr _ => .str

/-- The unexported `binding` struct: `{id, status, value, err}`.  The `any`
value and the `error` are nilable, hence `Option`. -/
structure Binding where
  id : ID
  status : BindStatus
  value : Option Val
  err : Option GoErr
deriving DecidableEq, Repr

/-- `bind(id, value)`: a Present binding holding a value. -/
def bind (i : ID) (value : Val) : Binding :=
  { id := i, status := .present, value := some value, err := none }

/-- `bindAbsentWithError(id, err)`: an Absent binding holding the given error
(which, like any Go `error`, may be nil). -/
def bindAbsentWithError (i : ID) (err : Option GoErr) : Binding :=
  { id := i, status := .absent, value := none, err := err }

/-- `bindAbsent(id)` = `bindAbsentWithError(id, ErrIsAbsent)`. -/
def bindAbsent (i : ID) : Binding :=
  bindAbsentWithError i (some .isAbsent)

/-- `bindPending(id)`: the pending fabricator used by `Binder.Get`. -/
def bindPending (i : ID) : Binding :=
  { id := i, status := .pending, value := none, err := none }

/-- The plain binder's `map[ID]Binding`, as an association list where the most
recent insertion is at the head (lookup finds it first, like a map read). -/
abbrev BinderMap := List (ID × Binding)

/-- Map read: `b.bindings[id]`. -/
def mapGet (m : BinderMap) (i : ID) : Option Binding :=
  List.lookup i m

/-- `binder.Store`: iterate over the batch; if a binding's ID is already
stored return `ErrDuplicateBinding` (wrapped with the ID), else insert and
continue.  The returned map is the binder's state after the call: insertions
made before a duplicate was hit remain (the Go code mutates in place). -/
def binderStore (m : BinderMap) : List Binding → BinderMap × Option GoErr
  | [] => (m, none)
  | b :: rest =>
    if (mapGet m b.id).isSome then
      (m, some (dupMsgErr b.id))
    else
      binderStore ((b.id, b) :: m) rest

/-- `binder.Get`: the stored binding, else a fresh Pending binding. -/
def binderGet (m : BinderMap) (i : ID) : Binding :=
  match mapGet m i with
  | some b => b
  | none => bindPending i

/-- `binder.Has`: every given ID has a stored binding. -/
def binderHas (m : BinderMap) (ids : List ID) : Bool :=
  ids.all fun i => (mapGet m i).isSome

/-- `overlayBinder`: a base and an overlay binder. -/
structure OverlayBinder where
  base : BinderMap
  overlay : BinderMap
deriving DecidableEq, Repr

/-- `overlayBinder.Store`: first check every binding in the batch against the
base (returning `ErrDuplicateBinding` for the first ID present in the base),
then delegate the whole batch to the overlay's `Store`. -/
def overlayStore (ob : OverlayBinder) (bs : List Binding) :
    OverlayBinder × Option GoErr :=
  match bs.find? (fun b => (mapGet ob.base b.id).isSome) with
  | some b => (ob, some (dupMsgErr b.id))
  | none =>
    let res := binderStore ob.overlay bs
    ({ base := ob.base, overlay := res.1 }, res.2)

/-- `overlayBinder.Get`: the overlay's binding when it is non-Pending, else
the base's binding. -/
def overlayGet (ob : OverlayBinder) (i : ID) : Binding :=
  let b := binderGet ob.overlay i
  if b.status ≠ .pending then b else binderGet ob.base i

/-- `graphTaskBinder`: internal and external binders plus the set of exposed
key IDs (the Go `set.Set[ID]`, modelled by a list read through membership). -/
structure GraphTaskBinder where
  internal : BinderMap
  external : BinderMap
  exposeKeys : List ID
deriving DecidableEq, Repr

/-- `graphTaskBinder.Store`: route each binding of the batch to the external
binder when its ID is in the expose set, else to the internal binder,
stopping at the first error. -/
def gtbStore (g : GraphTaskBinder) : List Binding → GraphTaskBinder × Option GoErr
  | [] => (g, none)
  | b :: rest =>
    if g.exposeKeys.contains b.id then
      match binderStore g.external [b] with
      | (ext, some e) => ({ g with external := ext }, some e)
      | (ext, none) => gtbStore { g with external := ext } rest
    else
      match binderStore g.internal [b] with
      | (intr, some e) => ({ g with internal := intr }, some e)
      | (intr, none) => gtbStore { g with internal := intr } rest

/-- `graphTaskBinder.Get`: the internal binding when non-Pending, else the
external binding. -/
def gtbGet (g : GraphTaskBinder) (i : ID) : Binding :=
  let ib := binderGet g.internal i
  if ib.status ≠ .pending then ib else binderGet g.external i

/-- The unexported `key[T]` struct, with the phantom type parameter reified
as the dynamic type expected by `Get`'s type assertion. -/
structure Key where
  id : ID
  ty : Ty
deriving DecidableEq, Repr

/-- `key.Bind(val)` = `bind(k.id, val)`. -/
def keyBind (k : Key) (v : Val) : Binding :=
  bind k.id v

/-- `key.BindAbsent()` = `bindAbsent(k.id)`. -/
def keyBindAbsent (k : Key) : Binding :=
  bindAbsent k.id

/-- `key.BindError(err)` = `bindAbsentWithError(k.id, err)`; the error
argument is a Go `error` and may be nil. -/
def keyBindError (k : Key) (err : Option GoErr) : Binding :=
  bindAbsentWithError k.id err

/-- The wrapper `wrapStackErrorf("cannot get key %q: %w", id, err)` used in
`key.Get`; a nil wrapped error still yields a non-nil formatted error. -/
def cannotGetErr (i : ID) (e : Option GoErr) : GoErr :=
  match e with
  | some inner => .wrapMsg ("cannot get key " ++ idString i) inner
  | none => .wrapNil ("cannot get key " ++ idString i)

/-- `key[T].Get(b)`: switch on the binding's status; Absent wraps the stored
error, Pending wraps `ErrIsPending`, Present type-asserts the value (failure
wraps `ErrWrongType`).  The binder is abstracted to its `Get` method. -/
def keyGet (k : Key) (getB : ID → Binding) : Except GoErr Val :=
  let b := getB k.id
  match b.status with
  | .absent => .error (cannotGetErr k.id b.err)
  | .pending => .error (cannotGetErr k.id (some .isPending))
  | .present =>
    match b.value with
    | some v =>
      if v.ty = k.ty then .ok v
      else .error (cannotGetErr k.id (some .wrongType))
    | none => .error (cannotGetErr k.id (some .wrongType))

/-- `key[bool].Get(b)`: the instantiation of `key[T].Get` at `T = bool`,
which is what the condition types call on their `ReadOnlyKey[bool]` entries. -/
def boolKeyGet (i : ID) (getB : ID → Binding) : Except GoErr Bool :=
  let b := getB i
  match b.status with
  | .absent => .error (cannotGetErr i b.err)
  | .pending => .error (cannotGetErr i (some .isPending))
  | .present =>
    match b.value with
    | some (.vbool v) => .ok v
    | _ => .error (cannotGetErr i (some .wrongType))

/-- `ConditionAnd.Evaluate`: read each key in order; an error aborts with the
error, a false value returns false, and the empty conjunction is true. -/
def conditionAndEvaluate (keys : List ID) (getB : ID → Binding) :
    Except GoErr Bool :=
  match keys with
  | [] => .ok true
  | k :: rest =>
    match boolKeyGet k getB with
    | .error e => .error e
    | .ok v => if v then conditionAndEvaluate rest getB else .ok false

/-- `ConditionOr.Evaluate`: read each key in order; an error aborts with the
error, a true value returns true, and the empty disjunction is false. -/
def conditionOrEvaluate (keys : List ID) (getB : ID → Binding) :
    Except GoErr Bool :=
  match keys with
  | [] => .ok false
  | k :: rest =>
    match boolKeyGet k getB with
    | .error e => .error e
    | .ok v => if v then .ok true else conditionOrEvaluate rest getB

/-- `ConditionOr.Evaluate` instrumented with the list of key IDs actually
read from the binder, in order, to express its short-circuiting. -/
def conditionOrEvaluateReads (keys : List ID) (getB : ID → Binding) :
    Except GoErr Bool × List ID :=
  match keys with
  | [] => (.ok false, [])
  | k :: rest =>
    match boolKeyGet k getB with
    | .error e => (.error e, [k])
    | .ok true => (.ok true, [k])
    | .ok false =>
      let res := conditionOrEvaluateReads rest getB
      (res.1, k :: res.2)

/-- `ConditionAnd.Evaluate` instrumented with the list of key IDs read. -/
def conditionAndEvaluateReads (keys : List ID) (getB : ID → Binding) :
    Except GoErr Bool × List ID :=
  match keys with
  | [] => (.ok true, [])
  | k :: rest =>
    match boolKeyGet k getB with
    | .error e => (.error e, [k])
    | .ok false => (.ok false, [k])
    | .ok true =>
      let res := conditionAndEvaluateReads rest getB
      (res.1, k :: res.2)

/-- A `Task`: name, declared dependencies and outputs, and the execution
function (the context argument is irrelevant to the embedded code and is
dropped; the binder is abstracted to its `Get` method, the only part these
task bodies use). -/
structure GoTask where
  name : String
  depends : List ID
  provides : List ID
  fn : (ID → Binding) → Except GoErr (List Binding)

/-- A `Condition`: its `Evaluate` function and its declared `Deps`. -/
structure GoCondition where
  evaluate : (ID → Binding) → Except GoErr Bool
  deps : List ID

/-- The `Conditional` wrapper struct. -/
structure Conditional where
  namePref : String
  wrapped : List GoTask
  condition : GoCondition
  defaultBindings : List Binding

/-- Lookup in the `defaultBindingsMap` built by `Conditional.Tasks`: a Go map
keyed by `b.ID()` where later entries of `DefaultBindings` overwrite earlier
ones. -/
def defaultBindingsMapGet (defaults : List Binding) (i : ID) : Option Binding :=
  List.lookup i (defaults.map fun b => (b.id, b)).reverse

/-- The replacement task `Conditional.Tasks` emits for one wrapped task:
name is the prefix concatenated with the task's name, dependencies are the
set union of the task's dependencies and the condition's deps (the Go
`set.Set` merges duplicates; order is unspecified, modelled by `dedup`),
provides is unchanged, and the body evaluates the condition, delegating on
true and producing defaults / absent bindings per provided ID on false. -/
def conditionalTaskOf (c : Conditional) (t : GoTask) : GoTask :=
  { name := c.namePref ++ t.name
    depends := (t.depends ++ c.condition.deps).dedup
    provides := t.provides
    fn := fun getB =>
      match c.condition.evaluate getB with
      | .error e => .error e
      | .ok true => t.fn getB
      | .ok false =>
        .ok (t.provides.map fun i =>
          match defaultBindingsMapGet c.defaultBindings i with
          | some db => db
          | none => bindAbsent i) }

/-- `Conditional.Tasks`: one replacement task per wrapped task. -/
def conditionalTasks (c : Conditional) : List GoTask :=
  c.wrapped.map (conditionalTaskOf c)

/-- The `Maybe[T]` struct: a present flag, a value (zero value when unset)
and a nilable error. -/
structure GoMaybe (T : Type) where
  present : Bool
  val : T
  err : Option GoErr
deriving DecidableEq, Repr

/-- The loop of `SelectSingleMaybe`, with the accumulator `res` and the
`found` flag made explicit; `zero` is Go's zero value of `T`. -/
def selectSingleMaybeLoop {T : Type} (zero res : T) (found : Bool) :
    List (GoMaybe T) → T × Option GoErr
  | [] => if found then (res, none) else (zero, some .noMaybesPresent)
  | m :: rest =>
    if m.present then
      if found then (zero, some .multipleMaybesPresent)
      else selectSingleMaybeLoop zero m.val true rest
    else selectSingleMaybeLoop zero res found rest

/-- `SelectSingleMaybe(maybes...)`: the unique present value, or an error if
none or several are present. -/
def selectSingleMaybe {T : Type} (zero : T) (maybes : List (GoMaybe T)) :
    T × Option GoErr :=
  selectSingleMaybeLoop zero zero false maybes

/-- The spec's status invariant on bindings, as a decidable predicate:
Present has a value and no error, Absent has an error and no value, Pending
has neither. -/
def bindingInvariant (b : Binding) : Bool :=
  (b.status != .present || (b.value.isSome && b.err == none)) &&
  (b.status != .absent || (b.err.isSome && b.value == none)) &&
  (b.status != .pending || (b.value == none && b.err == none))

/-- A binding is "bound Present with value true": status Present holding the
boolean value true. -/
def isPresentTrue (b : Binding) : Bool :=
  b.status == .present && b.value == some (.vbool true)

/-! ### Fixtures for witnesses and counterexamples -/

def idA : ID := { ns := "", id := "a" }
def idB : ID := { ns := "", id := "b" }
def idC : ID := { ns := "", id := "c" }

/-! ### Helper lemmas -/

theorem binderGet_of_lookup {m : BinderMap} {i : ID} {b : Binding}
    (h : mapGet m i = some b) : binderGet m i = b := by
  simp [binderGet, h]

theorem errorIs_self (e : GoErr) : errorIs e e = true := by
  cases e <;> simp [errorIs]

theorem errorIs_wrapMsg_of {inner target : GoErr} (s : String)
    (h : errorIs inner target = true) :
    errorIs (.wrapMsg s inner) target = true := by
  rw [errorIs]
  simp [h]

theorem lookup_id_of_keyed {l : List (ID × Binding)} {i : ID} {db : Binding}
    (hk : ∀ p ∈ l, (p.2).id = p.1)
    (h : List.lookup i l = some db) : db.id = i := by
  induction l with
  | nil => simp [List.lookup] at h
  | cons p rest ih =>
    rw [List.lookup] at h
    by_cases he : i = p.1
    · have : p.2 = db := by
        simpa [he] using h
      rw [← this, hk p (by simp), he]
    · have hne : (i == p.1) = false := by simpa using he
      rw [hne] at h
      exact ih (fun q hq => hk q (List.mem_cons_of_mem _ hq)) h

theorem defaultBindingsMapGet_id {defaults : List Binding} {i : ID} {db : Binding}
    (h : defaultBindingsMapGet defaults i = some db) : db.id = i := by
  unfold defaultBindingsMapGet at h
  refine lookup_id_of_keyed ?_ h
  intro p hp
  rcases List.mem_map.mp (List.mem_reverse.mp hp) with ⟨b, _, rfl⟩
  rfl

/-! ### C4: overlay binder reads -/

/-- C4: for every overlay binder built from `base` and `overlay` and every
ID, `Get(id)` equals `overlay.Get(id)` whenever that binding has non-Pending
status, and equals `base.Get(id)` otherwise. -/
theorem overlayGet_prefers_overlay (ob : OverlayBinder) (i : ID) :
    ((binderGet ob.overlay i).status ≠ .pending →
      overlayGet ob i = binderGet ob.overlay i) ∧
    ((binderGet ob.overlay i).status = .pending →
      overlayGet ob i = binderGet ob.base i) := by
  constructor <;> intro h <;> simp [overlayGet, h]

def obW : OverlayBinder :=
  { base := [(idA, bind idA (.vint 123))]
    overlay := [(idB, bind idB (.vint 456))] }

theorem overlayGet_prefers_overlay_witness :
    overlayGet obW idB = binderGet obW.overlay idB ∧
    overlayGet obW idA = binderGet obW.base idA :=
  ⟨(overlayGet_prefers_overlay obW idB).1 (by decide),
   (overlayGet_prefers_overlay obW idA).2 (by decide)⟩

/-! ### C10: empty conditions -/

/-- C10: for every binder, an empty `ConditionAnd` evaluates to `(true, nil)`
and an empty `ConditionOr` to `(false, nil)`, reading nothing from the
binder. -/
theorem empty_conditions_vacuous (getB : ID → Binding) :
    conditionAndEvaluate [] getB = .ok true ∧
    conditionOrEvaluate [] getB = .ok false ∧
    conditionAndEvaluateReads [] getB = (.ok true, []) ∧
    conditionOrEvaluateReads [] getB = (.ok false, []) :=
  ⟨rfl, rfl, rfl, rfl⟩

/-! ### C5: binding constructor invariant -/

/-- C5 counterexample: `BindError` called with a nil error (a legal Go
`error` value) produces an Absent binding whose error is unset, violating
the claimed invariant "Absent implies the error is set". -/
theorem bindError_nil_breaks_invariant :
    bindingInvariant (keyBindError { id := idC, ty := .bool } none) = false := by
  decide

/-- C5 (amended): `Bind`, `BindAbsent` and the pending fabricator always
satisfy the status invariant, and `BindError` satisfies it whenever its
error argument is non-nil. -/
theorem constructors_satisfy_invariant (k : Key) (i : ID) (v : Val) (e : GoErr) :
    bindingInvariant (keyBind k v) = true ∧
    bindingInvariant (keyBindAbsent k) = true ∧
    bindingInvariant (keyBindError k (some e)) = true ∧
    bindingInvariant (bindPending i) = true := by
  refine ⟨?_, rfl, rfl, rfl⟩
  simp [bindingInvariant, keyBind, bind]

/-! ### C8: shape of the Conditional replacement task -/

/-- C8: for every Conditional wrapper and every wrapped task, the emitted
replacement task's name is the prefix concatenated with the task's name, its
Depends set is the union of the task's Depends and the condition's Deps with
duplicates merged, and its Provides equals the task's Provides. -/
theorem conditional_task_shape (c : Conditional) (t : GoTask)
    (h : t ∈ c.wrapped) :
    conditionalTaskOf c t ∈ conditionalTasks c ∧
    (conditionalTaskOf c t).name = c.namePref ++ t.name ∧
    (conditionalTaskOf c t).provides = t.provides ∧
    (∀ i, i ∈ (conditionalTaskOf c t).depends ↔
      i ∈ t.depends ∨ i ∈ c.condition.deps) ∧
    (conditionalTaskOf c t).depends.Nodup := by
  refine ⟨List.mem_map_of_mem _ h, rfl, rfl, ?_, ?_⟩
  · intro i
    simp [conditionalTaskOf]
  · exact (t.depends ++ c.condition.deps).nodup_dedup

def tW : GoTask :=
  { name := "task", depends := [idA, idB], provides := [idC]
    fn := fun _ => .ok [] }

def cW : Conditional :=
  { namePref := "cond_", wrapped := [tW]
    condition := { evaluate := fun _ => .ok true, deps := [idB] }
    defaultBindings := [] }

theorem conditional_task_shape_witness :
    (conditionalTaskOf cW tW).name = cW.namePref ++ tW.name ∧
    (conditionalTaskOf cW tW).provides = tW.provides ∧
    (idB ∈ (conditionalTaskOf cW tW).depends ↔
      idB ∈ tW.depends ∨ idB ∈ cW.condition.deps) :=
  ⟨(conditional_task_shape cW tW (by simp [cW])).2.1,
   (conditional_task_shape cW tW (by simp [cW])).2.2.1,
   (conditional_task_shape cW tW (by simp [cW])).2.2.2.1 idB⟩

/-! ### C2: Conditional with a false condition -/

/-- C2: when the condition of a Conditional-wrapped task evaluates to false
without error, the emitted task's Execute succeeds and returns exactly one
binding per ID of the wrapped task's Provides list (in order); each binding
is the supplied default for its ID when one exists in the default-bindings
map, and otherwise an Absent binding whose error is the sentinel
`ErrIsAbsent`. -/
theorem conditional_false_uses_defaults (c : Conditional) (t : GoTask)
    (getB : ID → Binding) (h : c.condition.evaluate getB = .ok false) :
    ∃ out : List Binding,
      (conditionalTaskOf c t).fn getB = .ok out ∧
      out = t.provides.map (fun i =>
        match defaultBindingsMapGet c.defaultBindings i with
        | some db => db
        | none => bindAbsent i) ∧
      out.map Binding.id = t.provides ∧
      ∀ b ∈ out,
        defaultBindingsMapGet c.defaultBindings b.id = some b ∨
          (defaultBindingsMapGet c.defaultBindings b.id = none ∧
            b.status = .absent ∧ b.err = some .isAbsent ∧ b.value = none) := by
  have hid : ∀ i : ID,
      (match defaultBindingsMapGet c.defaultBindings i with
        | some db => db
        | none => bindAbsent i).id = i := by
    intro i
    cases hd : defaultBindingsMapGet c.defaultBindings i with
    | none => simp [hd, bindAbsent, bindAbsentWithError]
    | some db => simp [hd, defaultBindingsMapGet_id hd]
  refine ⟨_, ?_, rfl, ?_, ?_⟩
  · simp [conditionalTaskOf, h]
  · rw [List.map_map]
    have : ∀ i ∈ t.provides, (Binding.id ∘ fun i =>
        (match defaultBindingsMapGet c.defaultBindings i with
          | some db => db
          | none => bindAbsent i)) i = id i := by
      intro i _
      simpa using hid i
    rw [List.map_congr_left this, List.map_id]
  · intro b hb
    rcases List.mem_map.mp hb with ⟨i, _, rfl⟩
    cases hd : defaultBindingsMapGet c.defaultBindings i with
    | none =>
      right
      simp [hd, bindAbsent, bindAbsentWithError]
    | some db =>
      left
      have hdb : db.id = i := defaultBindingsMapGet_id hd
      simp [hd, hdb]

def tW2 : GoTask :=
  { name := "t", depends := [idA], provides := [idB, idC]
    fn := fun _ => .ok [] }

def cW2 : Conditional :=
  { namePref := "p_", wrapped := [tW2]
    condition := { evaluate := fun g => conditionOrEvaluate [idA] g, deps := [idA] }
    defaultBindings := [bind idB (.vint 9)] }

def mW2 : BinderMap := [(idA, bind idA (.vbool false))]

theorem conditional_false_uses_defaults_witness :
    ∃ out : List Binding,
      (conditionalTaskOf cW2 tW2).fn (binderGet mW2) = .ok out ∧
      out.map Binding.id = tW2.provides := by
  obtain ⟨out, h1, _, h3, _⟩ :=
    conditional_false_uses_defaults cW2 tW2 (binderGet mW2) (by rfl)
  exact ⟨out, h1, h3⟩

/-! ### C7: expose-filter binder -/

/-- C7: for every expose-filter binder, storing a binding whose ID is in the
expose set writes it to the external binder (internal unchanged), storing
any other binding writes it to the internal binder (external unchanged), and
`Get(id)` returns the internal binding when non-Pending, falling back to the
external binding otherwise. -/
theorem gtb_routes_and_reads (g : GraphTaskBinder) (b : Binding) (i : ID) :
    (g.exposeKeys.contains b.id = true →
      gtbStore g [b] =
        ({ g with external := (binderStore g.external [b]).1 },
          (binderStore g.external [b]).2)) ∧
    (g.exposeKeys.contains b.id = false →
      gtbStore g [b] =
        ({ g with internal := (binderStore g.internal [b]).1 },
          (binderStore g.internal [b]).2)) ∧
    ((binderGet g.internal i).status ≠ .pending →
      gtbGet g i = binderGet g.internal i) ∧
    ((binderGet g.internal i).status = .pending →
      gtbGet g i = binderGet g.external i) := by
  refine ⟨?_, ?_, ?_, ?_⟩
  · intro h
    rw [gtbStore, if_pos h]
    rcases hb : binderStore g.external [b] with ⟨ext, e⟩
    cases e <;> simp [gtbStore, hb]
  · intro h
    rw [gtbStore, if_neg (by simpa using h)]
    rcases hb : binderStore g.internal [b] with ⟨intr, e⟩
    cases e <;> simp [gtbStore, hb]
  · intro h
    simp [gtbGet, h]
  · intro h
    simp [gtbGet, h]

def gW : GraphTaskBinder :=
  { internal := [(idB, bind idB (.vint 2))]
    external := []
    exposeKeys := [idA] }

theorem gtb_routes_and_reads_witness :
    gtbStore gW [bind idA (.vint 1)] =
      ({ gW with external := (binderStore gW.external [bind idA (.vint 1)]).1 },
        (binderStore gW.external [bind idA (.vint 1)]).2) ∧
    gtbStore gW [bind idC (.vint 3)] =
      ({ gW with internal := (binderStore gW.internal [bind idC (.vint 3)]).1 },
        (binderStore gW.internal [bind idC (.vint 3)]).2) ∧
    gtbGet gW idB = binderGet gW.internal idB ∧
    gtbGet gW idA = binderGet gW.external idA :=
  ⟨(gtb_routes_and_reads gW (bind idA (.vint 1)) idA).1 (by decide),
   (gtb_routes_and_reads gW (bind idC (.vint 3)) idA).2.1 (by decide),
   (gtb_routes_and_reads gW (bind idA (.vint 1)) idB).2.2.1 (by decide),
   (gtb_routes_and_reads gW (bind idA (.vint 1)) idA).2.2.2 (by decide)⟩

/-! ### C9: SelectSingleMaybe -/

theorem selectLoop_no_present {T : Type} (zero res : T) (found : Bool)
    (ms : List (GoMaybe T)) (h : ∀ m ∈ ms, m.present = false) :
    selectSingleMaybeLoop zero res found ms =
      if found then (res, none) else (zero, some .noMaybesPresent) := by
  induction ms with
  | nil => rfl
  | cons m rest ih =>
    have hm : m.present = false := h m (by simp)
    rw [selectSingleMaybeLoop, if_neg (by simp [hm])]
    exact ih fun x hx => h x (List.mem_cons_of_mem _ hx)

theorem selectLoop_true_present {T : Type} (zero res : T)
    (ms : List (GoMaybe T)) (h : ∃ m ∈ ms, m.present = true) :
    selectSingleMaybeLoop zero res true ms = (zero, some .multipleMaybesPresent) := by
  induction ms generalizing res with
  | nil => simp at h
  | cons m rest ih =>
    by_cases hm : m.present = true
    · rw [selectSingleMaybeLoop, if_pos hm]
      rfl
    · rcases h with ⟨x, hx, hp⟩
      have hxr : x ∈ rest := by
        rcases List.mem_cons.mp hx with rfl | hr
        · exact absurd hp hm
        · exact hr
      rw [selectSingleMaybeLoop, if_neg hm]
      exact ih res ⟨x, hxr, hp⟩

/-- C9: `SelectSingleMaybe` returns the value of the unique present Maybe
with nil error when exactly one is present, the zero value with
`ErrNoMaybesPresent` when none is, and the zero value with
`ErrMultipleMaybesPresent` when two or more are. -/
theorem selectSingleMaybe_cases {T : Type} (zero : T) (ms : List (GoMaybe T)) :
    (ms.countP (fun m => m.present) = 0 →
      selectSingleMaybe zero ms = (zero, some .noMaybesPresent)) ∧
    (∀ m0, ms.countP (fun m => m.present) = 1 →
      ms.find? (fun m => m.present) = some m0 →
      selectSingleMaybe zero ms = (m0.val, none)) ∧
    (2 ≤ ms.countP (fun m => m.present) →
      selectSingleMaybe zero ms = (zero, some .multipleMaybesPresent)) := by
  refine ⟨?_, ?_, ?_⟩
  · intro h
    have hall : ∀ m ∈ ms, m.present = false := by
      intro m hm
      have := List.countP_eq_zero.mp h m hm
      simpa using this
    rw [selectSingleMaybe, selectLoop_no_present zero zero false ms hall, if_neg (by simp)]
  · induction ms with
    | nil => intro m0 _ hf; simp [List.find?] at hf
    | cons m rest ih =>
      intro m0 hc hf
      by_cases hm : m.present = true
      · have hm0 : m0 = m := by
          rw [List.find?, hm] at hf
          exact (Option.some_inj.mp hf).symm
        have hrest : ∀ x ∈ rest, x.present = false := by
          rw [List.countP_cons, if_pos hm] at hc
          have h0 : rest.countP (fun m => m.present) = 0 := by omega
          intro x hx
          simpa using List.countP_eq_zero.mp h0 x hx
        rw [selectSingleMaybe, selectSingleMaybeLoop, if_pos hm]
        rw [show (if (false : Bool) then ((zero, some GoErr.multipleMaybesPresent) : T × Option GoErr)
            else selectSingleMaybeLoop zero m.val true rest) =
            selectSingleMaybeLoop zero m.val true rest from rfl]
        rw [selectLoop_no_present zero m.val true rest hrest, if_pos rfl, hm0]
      · have hm' : m.present = false := by simpa using hm
        have hc' : rest.countP (fun m => m.present) = 1 := by
          rw [List.countP_cons, if_neg hm] at hc
          omega
        have hf' : rest.find? (fun m => m.present) = some m0 := by
          rwa [List.find?, hm'] at hf
        have := ih m0 hc' hf'
        rw [selectSingleMaybe, selectSingleMaybeLoop, if_neg (by simp [hm'])]
        rw [selectSingleMaybe] at this
        exact this
  · induction ms with
    | nil => intro h; simp at h
    | cons m rest ih =>
      intro h
      by_cases hm : m.present = true
      · have hrest : 0 < rest.countP (fun m => m.present) := by
          rw [List.countP_cons, if_pos hm] at h
          omega
        have hex : ∃ x ∈ rest, x.present = true := by
          rcases List.countP_pos_iff.mp hrest with ⟨x, hx, hp⟩
          exact ⟨x, hx, by simpa using hp⟩
        rw [selectSingleMaybe, selectSingleMaybeLoop, if_pos hm]
        rw [show (if (false : Bool) then ((zero, some GoErr.multipleMaybesPresent) : T × Option GoErr)
            else selectSingleMaybeLoop zero m.val true rest) =
            selectSingleMaybeLoop zero m.val true rest from rfl]
        exact selectLoop_true_present zero m.val rest hex
      · have hm' : m.present = false := by simpa using hm
        have h' : 2 ≤ rest.countP (fun m => m.present) := by
          rw [List.countP_cons, if_neg hm] at h
          omega
        rw [selectSingleMaybe, selectSingleMaybeLoop, if_neg (by simp [hm'])]
        rw [selectSingleMaybe] at ih
        exact ih h'

def msNone : List (GoMaybe Int) :=
  [{ present := false, val := 0, err := some .isAbsent }]

def msOne : List (GoMaybe Int) :=
  [{ present := false, val := 0, err := some .isAbsent },
   { present := true, val := 7, err := none }]

def msTwo : List (GoMaybe Int) :=
  [{ present := true, val := 1, err := none },
   { present := true, val := 2, err := none }]

theorem selectSingleMaybe_cases_witness :
    selectSingleMaybe (0 : Int) msNone = (0, some .noMaybesPresent) ∧
    selectSingleMaybe (0 : Int) msOne = (7, none) ∧
    selectSingleMaybe (0 : Int) msTwo = (0, some .multipleMaybesPresent) :=
  ⟨(selectSingleMaybe_cases 0 msNone).1 (by decide),
   (selectSingleMaybe_cases 0 msOne).2.1
     { present := true, val := 7, err := none } (by decide) (by decide),
   (selectSingleMaybe_cases 0 msTwo).2.2 (by decide)⟩

/-! ### C6: typed key reads -/

theorem binderGet_of_lookup_none {m : BinderMap} {i : ID}
    (h : mapGet m i = none) : binderGet m i = bindPending i := by
  simp [binderGet, h]

/-- C6: `key.Get` returns the bound value with nil error for a Present
binding of the key's type, an error wrapping `ErrWrongType` for a Present
binding of another type, an error wrapping `ErrIsPending` when the ID is
unbound, and an error wrapping the binding's stored error when the ID is
bound Absent. -/
theorem keyGet_cases (k : Key) (m : BinderMap) (b : Binding) (v : Val)
    (er : GoErr) :
    (mapGet m k.id = some b → b.status = .present → b.value = some v →
      v.ty = k.ty → keyGet k (binderGet m) = .ok v) ∧
    (mapGet m k.id = some b → b.status = .present → b.value = some v →
      v.ty ≠ k.ty →
      ∃ e, keyGet k (binderGet m) = .error e ∧ errorIs e .wrongType = true) ∧
    (mapGet m k.id = none →
      ∃ e, keyGet k (binderGet m) = .error e ∧ errorIs e .isPending = true) ∧
    (mapGet m k.id = some b → b.status = .absent → b.err = some er →
      ∃ e, keyGet k (binderGet m) = .error e ∧ errorIs e er = true) := by
  refine ⟨?_, ?_, ?_, ?_⟩
  · intro h1 h2 h3 h4
    simp [keyGet, binderGet_of_lookup h1, h2, h3, h4]
  · intro h1 h2 h3 h4
    refine ⟨cannotGetErr k.id (some .wrongType), ?_, ?_⟩
    · simp [keyGet, binderGet_of_lookup h1, h2, h3, h4]
    · exact errorIs_wrapMsg_of _ (errorIs_self _)
  · intro h1
    refine ⟨cannotGetErr k.id (some .isPending), ?_, ?_⟩
    · simp [keyGet, binderGet_of_lookup_none h1, bindPending]
    · exact errorIs_wrapMsg_of _ (errorIs_self _)
  · intro h1 h2 h3
    refine ⟨cannotGetErr k.id (some er), ?_, ?_⟩
    · simp [keyGet, binderGet_of_lookup h1, h2, h3]
    · exact errorIs_wrapMsg_of _ (errorIs_self _)

def idD : ID := { ns := "", id := "d" }

def mC6 : BinderMap :=
  [(idA, bind idA (.vint 5)),
   (idB, bind idB (.vstr "x")),
   (idC, bindAbsentWithError idC (some (.sentinel 3)))]

def kInt (i : ID) : Key := { id := i, ty := .int }

theorem keyGet_cases_witness :
    keyGet (kInt idA) (binderGet mC6) = .ok (.vint 5) ∧
    (∃ e, keyGet (kInt idB) (binderGet mC6) = .error e ∧
      errorIs e .wrongType = true) ∧
    (∃ e, keyGet (kInt idD) (binderGet mC6) = .error e ∧
      errorIs e .isPending = true) ∧
    (∃ e, keyGet (kInt idC) (binderGet mC6) = .error e ∧
      errorIs e (.sentinel 3) = true) :=
  ⟨(keyGet_cases (kInt idA) mC6 (bind idA (.vint 5)) (.vint 5) .isAbsent).1
      (by decide) rfl rfl rfl,
   (keyGet_cases (kInt idB) mC6 (bind idB (.vstr "x")) (.vstr "x") .isAbsent).2.1
      (by decide) rfl rfl (by decide),
   (keyGet_cases (kInt idD) mC6 (bindPending idD) (.vint 0) .isAbsent).2.2.1
      (by decide),
   (keyGet_cases (kInt idC) mC6 (bindAbsentWithError idC (some (.sentinel 3)))
      (.vint 0) (.sentinel 3)).2.2.2 (by decide) rfl rfl⟩

/-! ### C1: Store duplicate handling is not atomic over the batch -/

def mC1 : BinderMap := [(idB, bind idB (.vint 2))]

def batchC1 : List Binding := [bind idA (.vint 1), bind idB (.vint 3)]

/-- C1 counterexample: a batch containing a binding whose ID is already
stored (the second one) makes `Store` return `DuplicateBinding`, yet the
first binding of the batch HAS been committed: the binder's stored contents
are not what they were before the call. -/
theorem store_batch_not_atomic :
    (batchC1.any fun x => (mapGet mC1 x.id).isSome) = true ∧
    (binderStore mC1 batchC1).2 = some (dupMsgErr idB) ∧
    binderGet (binderStore mC1 batchC1).1 idA ≠ binderGet mC1 idA := by
  decide

/-- C1 (amended): when a batch contains a binding whose ID is already stored,
the plain binder's `Store` returns `DuplicateBinding` referencing the first
offending ID and commits exactly the bindings preceding the first duplicate
(the suffix from the duplicate onward is not committed); the overlay
binder's `Store` checks the whole batch against the base before writing, so
a duplicate against the base commits nothing. -/
theorem store_duplicate_prefix_commit (m : BinderMap) (pre post : List Binding)
    (b : Binding) (ob : OverlayBinder) (bs : List Binding) (bd : Binding)
    (h1 : (binderStore m pre).2 = none)
    (h2 : (mapGet (binderStore m pre).1 b.id).isSome = true)
    (h3 : bs.find? (fun x => (mapGet ob.base x.id).isSome) = some bd) :
    binderStore m (pre ++ b :: post) =
      ((binderStore m pre).1, some (dupMsgErr b.id)) ∧
    errorIs (dupMsgErr b.id) .duplicateBinding = true ∧
    overlayStore ob bs = (ob, some (dupMsgErr bd.id)) := by
  refine ⟨?_, errorIs_wrapMsg_of _ (errorIs_self _), ?_⟩
  · induction pre generalizing m with
    | nil =>
      have h2' : (mapGet m b.id).isSome = true := h2
      simp only [List.nil_append, binderStore, if_pos h2']
    | cons p pre ih =>
      by_cases hp : (mapGet m p.id).isSome = true
      · rw [binderStore, if_pos hp] at h1
        simp at h1
      · simp only [List.cons_append, binderStore, if_neg hp] at h1 h2 ⊢
        exact ih _ h1 h2
  · simp only [overlayStore, h3]

def obC1 : OverlayBinder :=
  { base := [(idB, bind idB (.vint 2))], overlay := [] }

theorem store_duplicate_prefix_commit_witness :
    binderStore mC1 ([bind idA (.vint 1)] ++ bind idB (.vint 3) :: []) =
      ((binderStore mC1 [bind idA (.vint 1)]).1,
        some (dupMsgErr (bind idB (.vint 3)).id)) ∧
    errorIs (dupMsgErr (bind idB (.vint 3)).id) .duplicateBinding = true ∧
    overlayStore obC1 [bind idB (.vint 7)] =
      (obC1, some (dupMsgErr (bind idB (.vint 7)).id)) :=
  store_duplicate_prefix_commit mC1 [bind idA (.vint 1)] [] (bind idB (.vint 3))
    obC1 [bind idB (.vint 7)] (bind idB (.vint 7))
    (by decide) (by decide) (by decide)

/-! ### C3: ConditionOr evaluation -/

theorem boolKeyGet_true_iff (i : ID) (getB : ID → Binding) :
    boolKeyGet i getB = .ok true ↔ isPresentTrue (getB i) = true := by
  rcases hg : getB i with ⟨bid, st, v, e⟩
  cases st
  case pending => simp [boolKeyGet, hg, isPresentTrue]
  case absent => simp [boolKeyGet, hg, isPresentTrue]
  case present =>
    rcases v with _ | val
    · simp [boolKeyGet, hg, isPresentTrue]
    · cases val <;> simp [boolKeyGet, hg, isPresentTrue]

theorem conditionOr_true_iff (keys : List ID) (getB : ID → Binding) :
    conditionOrEvaluate keys getB = .ok true ↔
      ∃ pre k post, keys = pre ++ k :: post ∧
        (∀ p ∈ pre, boolKeyGet p getB = .ok false) ∧
        boolKeyGet k getB = .ok true := by
  induction keys with
  | nil =>
    constructor
    · intro h
      simp [conditionOrEvaluate] at h
    · rintro ⟨pre, k, post, heq, -, -⟩
      exact absurd heq (by simp)
  | cons k0 rest ih =>
    cases h0 : boolKeyGet k0 getB with
    | error e =>
      constructor
      · intro h
        rw [conditionOrEvaluate] at h
        simp [h0] at h
      · rintro ⟨pre, k, post, heq, hpre, hk⟩
        cases pre with
        | nil =>
          simp only [List.nil_append, List.cons.injEq] at heq
          obtain ⟨rfl, rfl⟩ := heq
          rw [h0] at hk
          exact absurd hk (by simp)
        | cons p pre' =>
          simp only [List.cons_append, List.cons.injEq] at heq
          obtain ⟨rfl, -⟩ := heq
          have := hpre k0 (by simp)
          rw [h0] at this
          exact absurd this (by simp)
    | ok v =>
      cases v
      case false =>
        have hstep : conditionOrEvaluate (k0 :: rest) getB =
            conditionOrEvaluate rest getB := by
          rw [conditionOrEvaluate]
          simp [h0]
        rw [hstep, ih]
        constructor
        · rintro ⟨pre, k, post, heq, hpre, hk⟩
          refine ⟨k0 :: pre, k, post, by simp [heq], ?_, hk⟩
          intro p hp
          rcases List.mem_cons.mp hp with rfl | hp'
          · exact h0
          · exact hpre p hp'
        · rintro ⟨pre, k, post, heq, hpre, hk⟩
          cases pre with
          | nil =>
            simp only [List.nil_append, List.cons.injEq] at heq
            obtain ⟨rfl, rfl⟩ := heq
            rw [h0] at hk
            exact absurd hk (by simp)
          | cons p pre' =>
            simp only [List.cons_append, List.cons.injEq] at heq
            obtain ⟨rfl, hrest⟩ := heq
            exact ⟨pre', k, post, hrest,
              fun q hq => hpre q (List.mem_cons_of_mem _ hq), hk⟩
      case true =>
        have hstep : conditionOrEvaluate (k0 :: rest) getB = .ok true := by
          rw [conditionOrEvaluate]
          simp [h0]
        rw [hstep]
        constructor
        · intro _
          exact ⟨[], k0, rest, rfl, by simp, h0⟩
        · intro _
          rfl

theorem conditionOrReads_stops (getB : ID → Binding) (pre : List ID) :
    ∀ k post, (∀ p ∈ pre, boolKeyGet p getB = .ok false) →
      boolKeyGet k getB = .ok true →
      conditionOrEvaluateReads (pre ++ k :: post) getB = (.ok true, pre ++ [k]) := by
  induction pre with
  | nil =>
    intro k post _ hk
    rw [List.nil_append, conditionOrEvaluateReads]
    simp [hk]
  | cons p pre' ih =>
    intro k post hpre hk
    have hp : boolKeyGet p getB = .ok false := hpre p (by simp)
    rw [List.cons_append, conditionOrEvaluateReads]
    simp [hp, ih k post (fun q hq => hpre q (List.mem_cons_of_mem _ hq)) hk]

theorem conditionOrReads_fst (keys : List ID) (getB : ID → Binding) :
    (conditionOrEvaluateReads keys getB).1 = conditionOrEvaluate keys getB := by
  induction keys with
  | nil => rfl
  | cons k rest ih =>
    rw [conditionOrEvaluateReads, conditionOrEvaluate]
    cases h : boolKeyGet k getB with
    | error e => simp
    | ok v => cases v <;> simp [ih]

theorem conditionOr_error_prop (getB : ID → Binding) (pre : List ID) :
    ∀ k post e, (∀ p ∈ pre, boolKeyGet p getB = .ok false) →
      boolKeyGet k getB = .error e →
      conditionOrEvaluate (pre ++ k :: post) getB = .error e := by
  induction pre with
  | nil =>
    intro k post e _ hk
    rw [List.nil_append, conditionOrEvaluate]
    simp [hk]
  | cons p pre' ih =>
    intro k post e hpre hk
    have hp : boolKeyGet p getB = .ok false := hpre p (by simp)
    rw [List.cons_append, conditionOrEvaluate]
    simp [hp, ih k post e (fun q hq => hpre q (List.mem_cons_of_mem _ hq)) hk]

def mC3 : BinderMap := [(idB, bind idB (.vbool true))]

/-- C3 counterexample: with keys `[a, b]` where `a` is unbound and `b` is
bound Present with value true, some key in the list is bound Present true,
yet `ConditionOr.Evaluate` does not return true (it returns the pending-read
error from `a`): the claimed "if and only if" fails. -/
theorem conditionOr_misses_later_true :
    ([idA, idB].any fun i => isPresentTrue (binderGet mC3 i)) = true ∧
    conditionOrEvaluate [idA, idB] (binderGet mC3) ≠ .ok true := by
  decide

/-- C3 (amended): `ConditionOr.Evaluate` returns `(true, nil)` iff some key
reads as true with every earlier key reading as false without error (in
particular, whenever it returns true some key is bound Present with value
true); it stops reading keys at the first key that reads true; and a key
read that errors before any true key makes it return that error instead. -/
theorem conditionOr_evaluates (keys : List ID) (getB : ID → Binding) :
    (conditionOrEvaluate keys getB = .ok true ↔
      ∃ pre k post, keys = pre ++ k :: post ∧
        (∀ p ∈ pre, boolKeyGet p getB = .ok false) ∧
        boolKeyGet k getB = .ok true) ∧
    (conditionOrEvaluate keys getB = .ok true →
      ∃ k ∈ keys, isPresentTrue (getB k) = true) ∧
    (∀ pre k post, keys = pre ++ k :: post →
      (∀ p ∈ pre, boolKeyGet p getB = .ok false) →
      boolKeyGet k getB = .ok true →
      conditionOrEvaluateReads keys getB = (.ok true, pre ++ [k])) ∧
    ((conditionOrEvaluateReads keys getB).1 = conditionOrEvaluate keys getB) ∧
    (∀ pre k post e, keys = pre ++ k :: post →
      (∀ p ∈ pre, boolKeyGet p getB = .ok false) →
      boolKeyGet k getB = .error e →
      conditionOrEvaluate keys getB = .error e) := by
  refine ⟨conditionOr_true_iff keys getB, ?_, ?_, conditionOrReads_fst keys getB, ?_⟩
  · intro h
    obtain ⟨pre, k, post, heq, -, hk⟩ := (conditionOr_true_iff keys getB).mp h
    refine ⟨k, ?_, (boolKeyGet_true_iff k getB).mp hk⟩
    subst heq
    exact List.mem_append_right _ (List.mem_cons_self _ _)
  · intro pre k post heq hpre hk
    subst heq
    exact conditionOrReads_stops getB pre k post hpre hk
  · intro pre k post e heq hpre hk
    subst heq
    exact conditionOr_error_prop getB pre k post e hpre hk

def mC3w : BinderMap :=
  [(idA, bind idA (.vbool false)), (idB, bind idB (.vbool true))]

theorem conditionOr_evaluates_witness :
    (∃ k ∈ [idA, idB], isPresentTrue (binderGet mC3w k) = true) ∧
    conditionOrEvaluateReads [idA, idB] (binderGet mC3w) =
      (.ok true, [idA] ++ [idB]) :=
  ⟨(conditionOr_evaluates [idA, idB] (binderGet mC3w)).2.1 (by decide),
   (conditionOr_evaluates [idA, idB] (binderGet mC3w)).2.2.1 [idA] idB []
     rfl (by decide) (by decide)⟩

end Taskgraph
